import Mathlib

/-!
Shallow embedding of the agent/tool control loop of `src/app.py`.

The program wires a two-node cyclic graph (`agent`, `tools`) through the
external graph library: `agent_node` resolves the `GOOGLE_API_KEY`
credential, invokes the remote generation capability, `should_continue`
routes to the tools node exactly when the latest message carries tool
calls, and the compiled graph loops `agent → tools → agent` until
`should_continue` answers end.  The UI driver streams one pass of the loop
and then re-invokes the whole loop a second time for the final report,
wrapping both in one exception handler.

External capabilities (the remote LLM and the web-search endpoint) are
parameters of the embedding: a generation capability maps a message
history to a reply (content plus tool calls) or a raised fault, a search
capability maps a query to a result or a raised fault.  The loop runner is
fuel-indexed so that non-termination is observable as an `outOfFuel`
outcome, and it records the node trace, the outbound capability calls and
every intermediate conversation state.
-/

/-- A structured tool invocation embedded in an assistant message:
`tool_calls` entries carry the tool name, the `query` argument of
`web_search`, and the call id. -/
structure ToolCall where
  name : String
  query : String
  id : String
deriving Repr, DecidableEq

/-- A message of the conversation state: user input, an assistant reply
(with its `tool_calls` list), or a tool-result message produced by the
tools node (carrying the id and name of the call it answers). -/
inductive Message where
  | user (content : String)
  | assistant (content : String) (tool_calls : List ToolCall)
  | toolResult (content : String) (tool_call_id : String) (tool_name : String)
deriving Repr, DecidableEq

/-- The `.content` attribute every message kind carries. -/
def Message.content : Message → String
  | .user c => c
  | .assistant c _ => c
  | .toolResult c _ _ => c

/-- Whether a message is a tool-result message. -/
def Message.isToolResult : Message → Bool
  | .toolResult _ _ _ => true
  | _ => false

/-- The `tool_calls` list of a message; non-assistant messages have none. -/
def Message.tool_calls : Message → List ToolCall
  | .assistant _ tcs => tcs
  | _ => []

/-- `hasattr(last_msg, "tool_calls")`: only assistant messages carry the
`tool_calls` attribute. -/
def hasToolCallsAttr : Message → Bool
  | .assistant _ _ => true
  | _ => false

/-- The remote generation capability: given the message history it returns
the reply content and tool calls of one assistant message, or raises. -/
def GenCap : Type := List Message → Except String (String × List ToolCall)

/-- The remote search capability: given a query it returns a result text
or raises. -/
def SearchCap : Type := String → Except String String

/-- One outbound network call issued by the loop: a generation request
with the history it sent, or a search request with its query. -/
inductive CapCall where
  | gen (history : List Message)
  | search (query : String)
deriving Repr, DecidableEq

/-- `st.secrets.get("GOOGLE_API_KEY", os.getenv("GOOGLE_API_KEY"))`: the
secret store is consulted first, the process environment is the
fallback used only when the store yields nothing. -/
def resolveApiKey (secrets env : Option String) : Option String :=
  match secrets with
  | some v => some v
  | none => env

/-- `if not api_key`: the key is missing when it is absent or empty. -/
def keyMissing (k : Option String) : Bool :=
  match k with
  | none => true
  | some s => s == ""

/-- The sentinel assistant message returned when the credential is
missing. -/
def missingKeyMsg : Message :=
  Message.assistant "⚠️ **System Alert:** API Key missing. Check Settings." []

/-- `web_search` of `src/app.py`: delegates the query to the search
capability (`DuckDuckGoSearchRun`) with no error handling of its own. -/
def web_search (search : SearchCap) (query : String) : Except String String :=
  search query

/-- `agent_node` of `src/app.py`: resolve the credential; when missing,
return the sentinel assistant message without any network call; otherwise
invoke the generation capability on the full history and return its single
reply.  A fault raised by the generation call is not caught here. -/
def agent_node (secrets env : Option String) (llm : GenCap)
    (state : List Message) : Except String (List Message) :=
  if keyMissing (resolveApiKey secrets env) then
    Except.ok [missingKeyMsg]
  else
    match llm state with
    | Except.error e => Except.error e
    | Except.ok (c, tcs) => Except.ok [Message.assistant c tcs]

/-- The two routing answers of `should_continue`: the literal `"tools"`
and the literal `"__end__"`. -/
inductive Route where
  | tools
  | terminal
deriving Repr, DecidableEq

/-- `should_continue` of `src/app.py`: read `messages[-1]` (`none` models
the IndexError on an empty list), answer `tools` exactly when the message
has a `tool_calls` attribute holding a non-empty list, else end. -/
def should_continue (state : List Message) : Option Route :=
  match state.getLast? with
  | none => none
  | some last_msg =>
    if hasToolCallsAttr last_msg && !last_msg.tool_calls.isEmpty then
      some Route.tools
    else
      some Route.terminal

/-- The tool calls of the latest message of a state. -/
def lastToolCalls (state : List Message) : List ToolCall :=
  match state.getLast? with
  | some m => m.tool_calls
  | none => []

/-- The text the tools node stores for one call: the search output, or,
when the search capability raises, an error string built from the fault
text. -/
def toolOutput (search : SearchCap) (q : String) : String :=
  match web_search search q with
  | Except.ok r => r
  | Except.error e => "Error: " ++ e ++ "\n Please fix your mistakes."

/-- The text stored for one tool call: the (error-capturing) output of
`web_search` when the call names the registered tool, else the
invalid-tool notice. -/
def toolResultContent (search : SearchCap) (tc : ToolCall) : String :=
  if tc.name == "web_search" then toolOutput search tc.query
  else tc.name ++ " is not a valid tool, try one of [web_search]."

/-- Modelled from the spec: the prebuilt `ToolNode` of the external graph
library is not part of this repository's source; per the spec it executes
the tool call on the latest assistant message through `web_search` and
captures tool failures as textual results instead of propagating them,
appending one tool-result message per tool call. -/
def tool_node (search : SearchCap) (state : List Message) : List Message :=
  (lastToolCalls state).map fun tc =>
    Message.toolResult (toolResultContent search tc) tc.id tc.name

/-- The two graph nodes registered by `create_graph`. -/
inductive Node where
  | agent
  | tools
deriving Repr, DecidableEq

/-- How one loop execution ends: normal end with the final state, a fault
raised by the generation call and left uncaught, the IndexError of
`messages[-1]` on an empty list, or fuel exhaustion (the loop was still
cycling). -/
inductive Outcome where
  | finished (messages : List Message)
  | fault (e : String)
  | indexFault
  | outOfFuel (messages : List Message)
deriving Repr, DecidableEq

/-- Whether the outcome is a normal end. -/
def Outcome.isFinished : Outcome → Bool
  | .finished _ => true
  | _ => false

/-- Whether the outcome is fuel exhaustion. -/
def Outcome.isOutOfFuel : Outcome → Bool
  | .outOfFuel _ => true
  | _ => false

/-- Whether the outcome is the IndexError of `messages[-1]`. -/
def Outcome.isIndexFault : Outcome → Bool
  | .indexFault => true
  | _ => false

/-- The content of the last message of a finished run. -/
def Outcome.terminalContent : Outcome → Option String
  | .finished msgs => msgs.getLast?.map Message.content
  | _ => none

/-- One loop execution: the nodes it ran, the outbound capability calls it
issued, the conversation state after each node, and how it ended. -/
structure RunResult where
  nodes : List Node
  calls : List CapCall
  states : List (List Message)
  outcome : Outcome
deriving Repr, DecidableEq

/-- The generation calls one agent step issues: none when the credential
is missing, otherwise one invocation on the current history (issued even
when that invocation raises). -/
def genTrace (secrets env : Option String) (state : List Message) : List CapCall :=
  if keyMissing (resolveApiKey secrets env) then [] else [CapCall.gen state]

/-- The compiled graph of `create_graph`, run with `fuel` as the bound on
agent iterations: entry point `agent`, conditional edges from `agent`
through `should_continue`, fixed edge `tools → agent`; `add_messages`
appends every node output to the state. -/
def runLoop (secrets env : Option String) (llm : GenCap) (search : SearchCap) :
    Nat → List Message → RunResult
  | 0, state => { nodes := [], calls := [], states := [], outcome := Outcome.outOfFuel state }
  | fuel+1, state =>
    match agent_node secrets env llm state with
    | Except.error e =>
        { nodes := [Node.agent], calls := genTrace secrets env state,
          states := [], outcome := Outcome.fault e }
    | Except.ok newMsgs =>
        let s1 := state ++ newMsgs
        match should_continue s1 with
        | none =>
            { nodes := [Node.agent], calls := genTrace secrets env state,
              states := [s1], outcome := Outcome.indexFault }
        | some Route.terminal =>
            { nodes := [Node.agent], calls := genTrace secrets env state,
              states := [s1], outcome := Outcome.finished s1 }
        | some Route.tools =>
            let s2 := s1 ++ tool_node search s1
            let r := runLoop secrets env llm search fuel s2
            { nodes := Node.agent :: Node.tools :: r.nodes,
              calls := genTrace secrets env state
                       ++ (lastToolCalls s1).map (fun tc => CapCall.search tc.query)
                       ++ r.calls,
              states := s1 :: s2 :: r.states,
              outcome := r.outcome }

/-- The apostrophe character, kept out of string literals. -/
def quoteChar : Char := Char.ofNat 39

/-- The prompt the UI builds from the submitted topic. -/
def researchPrompt (topic : String) : String :=
  "Research: " ++ quoteChar.toString ++ topic ++ quoteChar.toString
    ++ ". Write a structured report."

/-- The initial conversation state the UI hands to the loop. -/
def initialInputs (topic : String) : List Message :=
  [Message.user (researchPrompt topic)]

/-- The streaming pass of the UI driver (`app.stream(inputs)`): one full
loop execution whose per-node events feed the progress panel. -/
def streamPass (secrets env : Option String) (llm : GenCap) (search : SearchCap)
    (fuel : Nat) (topic : String) : RunResult :=
  runLoop secrets env llm search fuel (initialInputs topic)

/-- The blocking pass of the UI driver (`app.invoke(inputs)`): a second
full loop execution on the same inputs, run to fetch the final report. -/
def invokePass (secrets env : Option String) (llm : GenCap) (search : SearchCap)
    (fuel : Nat) (topic : String) : RunResult :=
  runLoop secrets env llm search fuel (initialInputs topic)

/-- All outbound capability calls one user request issues: those of the
streaming pass, then — when the streaming pass ended without a raised
fault — those of the blocking pass run right after it. -/
def uiOutboundCalls (secrets env : Option String) (llm : GenCap) (search : SearchCap)
    (fuel : Nat) (topic : String) : List CapCall :=
  match (streamPass secrets env llm search fuel topic).outcome with
  | Outcome.finished _ =>
      (streamPass secrets env llm search fuel topic).calls
        ++ (invokePass secrets env llm search fuel topic).calls
  | _ => (streamPass secrets env llm search fuel topic).calls

/-- What the UI renders for one request: the final report card, the
`st.error` failure panel of the enclosing exception handler, or still
pending (the loop was still cycling when the fuel ran out). -/
inductive UIOutput where
  | report (content : String)
  | errorPanel (text : String)
  | pending
deriving Repr, DecidableEq

/-- The UI driver of `src/app.py` lines 200-230: stream the loop, then
invoke it again and render `["messages"][-1].content` of the result; any
exception raised out of either pass is caught by the surrounding
`try/except` and rendered as the `System Malfunction` error panel. -/
def uiDriver (secrets env : Option String) (llm : GenCap) (search : SearchCap)
    (fuel : Nat) (topic : String) : UIOutput :=
  match (streamPass secrets env llm search fuel topic).outcome with
  | Outcome.fault e => UIOutput.errorPanel ("System Malfunction: " ++ e)
  | Outcome.indexFault => UIOutput.errorPanel "System Malfunction: IndexError"
  | Outcome.outOfFuel _ => UIOutput.pending
  | Outcome.finished _ =>
    match (invokePass secrets env llm search fuel topic).outcome with
    | Outcome.fault e => UIOutput.errorPanel ("System Malfunction: " ++ e)
    | Outcome.indexFault => UIOutput.errorPanel "System Malfunction: IndexError"
    | Outcome.outOfFuel _ => UIOutput.pending
    | Outcome.finished msgs =>
        UIOutput.report ((msgs.getLastD (Message.user "")).content)

/-- Whether the agent step output is a single-message list; trivial on
faults, where no output list exists. -/
def okLen1 : Except String (List Message) → Prop
  | Except.ok msgs => msgs.length = 1
  | Except.error _ => True

/-- No tool-result message stands first in the conversation. -/
def noLeadingTR : List Message → Bool
  | [] => true
  | m :: _ => !m.isToolResult

/-- An adjacent pair is admissible when its second member, if a
tool-result message, answers a matching tool call of an assistant first
member. -/
def adjOk : Message → Message → Bool
  | prev, Message.toolResult _ tcid tcname =>
    (match prev with
     | Message.assistant _ tcs => tcs.any fun tc => tc.id == tcid && tc.name == tcname
     | _ => false)
  | _, _ => true

/-- Every adjacent pair of the conversation is admissible. -/
def adjacentOk : List Message → Bool
  | a :: b :: rest => adjOk a b && adjacentOk (b :: rest)
  | _ => true

/-- The conversation-state invariant: a tool-result message is never
first and is always immediately preceded by an assistant message carrying
a matching tool call. -/
def msgInvariant (msgs : List Message) : Bool :=
  noLeadingTR msgs && adjacentOk msgs

/-- Boolean prefix test on message lists. -/
def msgsPrefixOf : List Message → List Message → Bool
  | [], _ => true
  | _ :: _, [] => false
  | a :: as, b :: bs => decide (a = b) && msgsPrefixOf as bs

/-- Each state of the list extends the previous one by appending only. -/
def isAppendChain : List (List Message) → Bool
  | a :: b :: rest => msgsPrefixOf a b && isAppendChain (b :: rest)
  | _ => true

/-- The node sequence of a loop that runs `n` full agent-tools rounds
without ever terminating. -/
def cycleNodes : Nat → List Node
  | 0 => []
  | n+1 => Node.agent :: Node.tools :: cycleNodes n

/-- A generation capability that answers a `web_search` tool call on the
first round and, once a tool result is in the history, a final report
with no tool calls. -/
def twoStepLLM (c final q tcid : String) : GenCap := fun h =>
  if h.any Message.isToolResult then Except.ok (final, [])
  else Except.ok (c, [⟨"web_search", q, tcid⟩])

/-- A generation capability that requests a tool call on every
invocation. -/
def loopingLLM (c : String) (tc : ToolCall) : GenCap := fun _ =>
  Except.ok (c, [tc])

/-- A generation capability whose every invocation raises. -/
def llmBoom : GenCap := fun _ => Except.error "boom"

/-- A search capability that answers every query with its own text. -/
def searchEcho : SearchCap := fun q => Except.ok q

theorem should_continue_append (s : List Message) (m : Message) :
    should_continue (s ++ [m]) =
      (if hasToolCallsAttr m && !m.tool_calls.isEmpty then some Route.tools
       else some Route.terminal) := by
  simp [should_continue, List.getLast?_concat]

theorem should_continue_append_assistant_nil (s : List Message) (c : String) :
    should_continue (s ++ [Message.assistant c []]) = some Route.terminal := by
  simp [should_continue_append, hasToolCallsAttr, Message.tool_calls]

theorem agent_node_missing (secrets env : Option String) (llm : GenCap)
    (state : List Message) (h : keyMissing (resolveApiKey secrets env) = true) :
    agent_node secrets env llm state = Except.ok [missingKeyMsg] := by
  simp [agent_node, h]

theorem agent_node_present (secrets env : Option String) (llm : GenCap)
    (state : List Message) (h : keyMissing (resolveApiKey secrets env) = false) :
    agent_node secrets env llm state =
      (match llm state with
       | Except.error e => Except.error e
       | Except.ok (c, tcs) => Except.ok [Message.assistant c tcs]) := by
  simp [agent_node, h]

theorem agent_node_ok_shape (secrets env : Option String) (llm : GenCap)
    (state msgs : List Message)
    (h : agent_node secrets env llm state = Except.ok msgs) :
    ∃ c tcs, msgs = [Message.assistant c tcs] := by
  unfold agent_node at h
  split at h
  · injection h with h
    exact ⟨_, _, h.symm⟩
  · cases hl : llm state with
    | error e => rw [hl] at h; cases h
    | ok p =>
      obtain ⟨c, tcs⟩ := p
      rw [hl] at h
      injection h with h
      exact ⟨c, tcs, h.symm⟩

theorem lastToolCalls_append (s : List Message) (m : Message) :
    lastToolCalls (s ++ [m]) = m.tool_calls := by
  simp [lastToolCalls, List.getLast?_concat]

theorem tool_node_single (search : SearchCap) (s : List Message) (c : String)
    (tc : ToolCall) :
    tool_node search (s ++ [Message.assistant c [tc]]) =
      [Message.toolResult (toolResultContent search tc) tc.id tc.name] := by
  simp [tool_node, lastToolCalls_append, Message.tool_calls]

theorem adjOk_not_tr (m1 m2 : Message) (h : m2.isToolResult = false) :
    adjOk m1 m2 = true := by
  cases m1 <;> cases m2 <;> simp_all [adjOk, Message.isToolResult]

theorem adjacentOk_append_one (s : List Message) (m : Message)
    (hs : adjacentOk s = true)
    (hlast : ∀ lm, s.getLast? = some lm → adjOk lm m = true) :
    adjacentOk (s ++ [m]) = true := by
  induction s with
  | nil => simp [adjacentOk]
  | cons a t ih =>
    cases t with
    | nil =>
      have h1 : adjOk a m = true := hlast a rfl
      simp [adjacentOk, h1]
    | cons b t2 =>
      have hs2 : adjOk a b = true ∧ adjacentOk (b :: t2) = true := by
        simpa [adjacentOk] using hs
      have h2 := ih hs2.2 (fun lm hlm =>
        hlast lm (by rw [List.getLast?_cons_cons]; exact hlm))
      show (adjOk a b && adjacentOk ((b :: t2) ++ [m])) = true
      rw [hs2.1, h2]
      rfl

theorem noLeadingTR_append (s : List Message) (m : Message)
    (hm : m.isToolResult = false) (hs : noLeadingTR s = true) :
    noLeadingTR (s ++ [m]) = true := by
  cases s <;> simp_all [noLeadingTR]

theorem noLeadingTR_append_of_ne (s : List Message) (m : Message) (hs : s ≠ []) :
    noLeadingTR (s ++ [m]) = noLeadingTR s := by
  cases s with
  | nil => exact absurd rfl hs
  | cons a t => rfl

theorem msgInvariant_append_nonTR (s : List Message) (m : Message)
    (hm : m.isToolResult = false) (hs : msgInvariant s = true) :
    msgInvariant (s ++ [m]) = true := by
  simp only [msgInvariant, Bool.and_eq_true] at hs ⊢
  exact ⟨noLeadingTR_append s m hm hs.1,
         adjacentOk_append_one s m hs.2 (fun lm _ => adjOk_not_tr lm m hm)⟩

theorem msgInvariant_append_toolResult (s : List Message) (c out : String)
    (tc : ToolCall)
    (hs : msgInvariant (s ++ [Message.assistant c [tc]]) = true) :
    msgInvariant ((s ++ [Message.assistant c [tc]])
      ++ [Message.toolResult out tc.id tc.name]) = true := by
  simp only [msgInvariant, Bool.and_eq_true] at hs ⊢
  constructor
  · rw [noLeadingTR_append_of_ne _ _ (by simp)]
    exact hs.1
  · apply adjacentOk_append_one _ _ hs.2
    intro lm hlm
    rw [List.getLast?_concat] at hlm
    injection hlm with hlm
    rw [← hlm]
    simp [adjOk]

theorem msgsPrefixOf_append (s t : List Message) : msgsPrefixOf s (s ++ t) = true := by
  induction s with
  | nil => rfl
  | cons a as ih => simp [msgsPrefixOf, ih]

theorem tools_route_nonempty (s : List Message) (c : String) (tcs : List ToolCall)
    (h : should_continue (s ++ [Message.assistant c tcs]) = some Route.tools) :
    tcs ≠ [] := by
  intro htc
  subst htc
  rw [should_continue_append_assistant_nil] at h
  simp at h

theorem singleton_of_len_le_one {α : Type} (l : List α) (hne : l ≠ [])
    (hlen : l.length ≤ 1) : ∃ a, l = [a] := by
  cases l with
  | nil => exact absurd rfl hne
  | cons a t =>
    cases t with
    | nil => exact ⟨a, rfl⟩
    | cons b t2 => simp [List.length_cons] at hlen

theorem agent_node_ok_shape_len (secrets env : Option String) (llm : GenCap)
    (state msgs : List Message)
    (hllm : ∀ h c tcs, llm h = Except.ok (c, tcs) → tcs.length ≤ 1)
    (h : agent_node secrets env llm state = Except.ok msgs) :
    ∃ c tcs, msgs = [Message.assistant c tcs] ∧ tcs.length ≤ 1 := by
  unfold agent_node at h
  split at h
  · injection h with h2
    refine ⟨"⚠️ **System Alert:** API Key missing. Check Settings.", [], ?_, by decide⟩
    rw [← h2]
    rfl
  · cases hl : llm state with
    | error e => rw [hl] at h; cases h
    | ok p =>
      obtain ⟨c, tcs⟩ := p
      rw [hl] at h
      injection h with h2
      exact ⟨c, tcs, h2.symm, hllm state c tcs hl⟩

theorem runLoop_missing_key (secrets env : Option String) (llm : GenCap)
    (search : SearchCap) (fuel : Nat) (init : List Message)
    (h : keyMissing (resolveApiKey secrets env) = true) :
    runLoop secrets env llm search (fuel+1) init =
      { nodes := [Node.agent], calls := [],
        states := [init ++ [missingKeyMsg]],
        outcome := Outcome.finished (init ++ [missingKeyMsg]) } := by
  have hA := agent_node_missing secrets env llm init h
  have hR : should_continue (init ++ [missingKeyMsg]) = some Route.terminal :=
    should_continue_append_assistant_nil init _
  simp [runLoop, hA, hR, genTrace, h]

theorem runLoop_one_step (key : String) (hk : (key == "") = false)
    (env : Option String) (llm : GenCap) (search : SearchCap) (fuel : Nat)
    (init : List Message) (c : String) (hl : llm init = Except.ok (c, [])) :
    runLoop (some key) env llm search (fuel+1) init =
      { nodes := [Node.agent], calls := [CapCall.gen init],
        states := [init ++ [Message.assistant c []]],
        outcome := Outcome.finished (init ++ [Message.assistant c []]) } := by
  have hkm : keyMissing (resolveApiKey (some key) env) = false := by
    simpa [resolveApiKey, keyMissing] using hk
  have hA : agent_node (some key) env llm init
      = Except.ok [Message.assistant c []] := by
    rw [agent_node_present _ _ _ _ hkm, hl]
  simp [runLoop, hA, should_continue_append_assistant_nil, genTrace, hkm]

theorem runLoop_no_indexFault (secrets env : Option String) (llm : GenCap)
    (search : SearchCap) :
    ∀ (fuel : Nat) (state : List Message),
      (runLoop secrets env llm search fuel state).outcome.isIndexFault = false := by
  intro fuel
  induction fuel with
  | zero => intro state; rfl
  | succ n ih =>
    intro state
    cases hA : agent_node secrets env llm state with
    | error e => simp [runLoop, hA, Outcome.isIndexFault]
    | ok newMsgs =>
      obtain ⟨c, tcs, rfl⟩ := agent_node_ok_shape _ _ _ _ _ hA
      cases hR : should_continue (state ++ [Message.assistant c tcs]) with
      | none =>
        rw [should_continue_append] at hR
        split at hR <;> cases hR
      | some r =>
        cases r with
        | terminal => simp [runLoop, hA, hR, Outcome.isIndexFault]
        | tools => simp [runLoop, hA, hR, ih]

theorem runLoop_looping (key c : String) (hk : (key == "") = false)
    (env : Option String) (search : SearchCap) (tc : ToolCall) :
    ∀ (fuel : Nat) (state : List Message),
      (runLoop (some key) env (loopingLLM c tc) search fuel state).outcome.isOutOfFuel
          = true ∧
      (runLoop (some key) env (loopingLLM c tc) search fuel state).nodes
          = cycleNodes fuel := by
  have hkm : keyMissing (resolveApiKey (some key) env) = false := by
    simpa [resolveApiKey, keyMissing] using hk
  intro fuel
  induction fuel with
  | zero => intro state; exact ⟨rfl, rfl⟩
  | succ n ih =>
    intro state
    have hA : agent_node (some key) env (loopingLLM c tc) state
        = Except.ok [Message.assistant c [tc]] := by
      rw [agent_node_present _ _ _ _ hkm]
      rfl
    have hR : should_continue (state ++ [Message.assistant c [tc]])
        = some Route.tools := by
      simp [should_continue_append, hasToolCallsAttr, Message.tool_calls]
    have htn := tool_node_single search state c tc
    obtain ⟨ih1, ih2⟩ := ih (state ++ [Message.assistant c [tc],
      Message.toolResult (toolResultContent search tc) tc.id tc.name])
    constructor
    · simp only [runLoop, hA, hR, htn]
      simpa [List.append_assoc] using ih1
    · simp only [runLoop, hA, hR, htn]
      simp [cycleNodes, List.append_assoc, ih2]

theorem runLoop_states_sound (secrets env : Option String) (llm : GenCap)
    (search : SearchCap)
    (hllm : ∀ h c tcs, llm h = Except.ok (c, tcs) → tcs.length ≤ 1) :
    ∀ (fuel : Nat) (init : List Message), msgInvariant init = true →
      ((runLoop secrets env llm search fuel init).states.all msgInvariant = true ∧
       isAppendChain (init :: (runLoop secrets env llm search fuel init).states)
          = true) := by
  intro fuel
  induction fuel with
  | zero => intro init hinit; exact ⟨rfl, rfl⟩
  | succ n ih =>
    intro init hinit
    cases hA : agent_node secrets env llm init with
    | error e => simp [runLoop, hA, isAppendChain]
    | ok newMsgs =>
      obtain ⟨c, tcs, rfl, hlen⟩ := agent_node_ok_shape_len _ _ _ _ _ hllm hA
      have hs1 : msgInvariant (init ++ [Message.assistant c tcs]) = true :=
        msgInvariant_append_nonTR _ _ rfl hinit
      cases hR : should_continue (init ++ [Message.assistant c tcs]) with
      | none =>
        simp [runLoop, hA, hR, isAppendChain, hs1, msgsPrefixOf_append]
      | some r =>
        cases r with
        | terminal =>
          simp [runLoop, hA, hR, isAppendChain, hs1, msgsPrefixOf_append]
        | tools =>
          obtain ⟨tc, rfl⟩ := singleton_of_len_le_one tcs
            (tools_route_nonempty init c tcs hR) hlen
          have htn := tool_node_single search init c tc
          have hs2 : msgInvariant ((init ++ [Message.assistant c [tc]])
              ++ [Message.toolResult (toolResultContent search tc) tc.id tc.name])
              = true :=
            msgInvariant_append_toolResult init c _ tc hs1
          have hs2n : msgInvariant (init ++ [Message.assistant c [tc],
              Message.toolResult (toolResultContent search tc) tc.id tc.name])
              = true := by
            simpa [List.append_assoc] using hs2
          have hpre : msgsPrefixOf (init ++ [Message.assistant c [tc]])
              (init ++ [Message.assistant c [tc],
                Message.toolResult (toolResultContent search tc) tc.id tc.name])
              = true := by
            simpa [List.append_assoc] using
              msgsPrefixOf_append (init ++ [Message.assistant c [tc]])
                [Message.toolResult (toolResultContent search tc) tc.id tc.name]
          obtain ⟨ihall, ihchain⟩ := ih (init ++ [Message.assistant c [tc],
            Message.toolResult (toolResultContent search tc) tc.id tc.name]) hs2n
          constructor
          · simp only [runLoop, hA, hR, htn]
            simp only [List.all_cons, List.append_assoc]
            simp [hs1, hs2n, ihall, List.all_eq_true]
          · simp only [runLoop, hA, hR, htn, isAppendChain]
            simp [isAppendChain, msgsPrefixOf_append, hs1, hpre, ihchain,
              List.append_assoc]

theorem toolResultContent_web_search (search : SearchCap) (q tcid : String) :
    toolResultContent search ⟨"web_search", q, tcid⟩ = toolOutput search q := by
  simp [toolResultContent]

theorem runLoop_tools_unfold (secrets env : Option String) (llm : GenCap)
    (search : SearchCap) (fuel : Nat) (state newMsgs : List Message)
    (hA : agent_node secrets env llm state = Except.ok newMsgs)
    (hR : should_continue (state ++ newMsgs) = some Route.tools) :
    runLoop secrets env llm search (fuel+1) state =
      { nodes := Node.agent :: Node.tools ::
          (runLoop secrets env llm search fuel
            ((state ++ newMsgs) ++ tool_node search (state ++ newMsgs))).nodes,
        calls := genTrace secrets env state
          ++ (lastToolCalls (state ++ newMsgs)).map
              (fun tc => CapCall.search tc.query)
          ++ (runLoop secrets env llm search fuel
              ((state ++ newMsgs) ++ tool_node search (state ++ newMsgs))).calls,
        states := (state ++ newMsgs)
          :: ((state ++ newMsgs) ++ tool_node search (state ++ newMsgs))
          :: (runLoop secrets env llm search fuel
              ((state ++ newMsgs) ++ tool_node search (state ++ newMsgs))).states,
        outcome := (runLoop secrets env llm search fuel
            ((state ++ newMsgs) ++ tool_node search (state ++ newMsgs))).outcome }
    := by
  simp only [runLoop, hA, hR]

theorem runLoop_two_step (key c final q tcid : String) (hk : (key == "") = false)
    (env : Option String) (search : SearchCap) (fuel : Nat) (topic : String) :
    runLoop (some key) env (twoStepLLM c final q tcid) search (fuel+2)
        [Message.user topic] =
      { nodes := [Node.agent, Node.tools, Node.agent],
        calls := [CapCall.gen [Message.user topic], CapCall.search q,
                  CapCall.gen [Message.user topic,
                    Message.assistant c [⟨"web_search", q, tcid⟩],
                    Message.toolResult (toolOutput search q) tcid "web_search"]],
        states := [[Message.user topic,
                    Message.assistant c [⟨"web_search", q, tcid⟩]],
                   [Message.user topic,
                    Message.assistant c [⟨"web_search", q, tcid⟩],
                    Message.toolResult (toolOutput search q) tcid "web_search"],
                   [Message.user topic,
                    Message.assistant c [⟨"web_search", q, tcid⟩],
                    Message.toolResult (toolOutput search q) tcid "web_search",
                    Message.assistant final []]],
        outcome := Outcome.finished
                   [Message.user topic,
                    Message.assistant c [⟨"web_search", q, tcid⟩],
                    Message.toolResult (toolOutput search q) tcid "web_search",
                    Message.assistant final []] } := by
  have hkm : keyMissing (resolveApiKey (some key) env) = false := by
    simpa [resolveApiKey, keyMissing] using hk
  have hl1 : twoStepLLM c final q tcid [Message.user topic]
      = Except.ok (c, [⟨"web_search", q, tcid⟩]) := by
    simp [twoStepLLM, Message.isToolResult]
  have hA1 : agent_node (some key) env (twoStepLLM c final q tcid)
      [Message.user topic]
      = Except.ok [Message.assistant c [⟨"web_search", q, tcid⟩]] := by
    rw [agent_node_present _ _ _ _ hkm, hl1]
  have hR1 : should_continue ([Message.user topic]
      ++ [Message.assistant c [⟨"web_search", q, tcid⟩]]) = some Route.tools := by
    rw [should_continue_append]
    simp [hasToolCallsAttr, Message.tool_calls]
  have htn := tool_node_single search [Message.user topic] c
    ⟨"web_search", q, tcid⟩
  rw [toolResultContent_web_search] at htn
  simp only [List.singleton_append] at htn
  have hl2 : twoStepLLM c final q tcid
      [Message.user topic, Message.assistant c [⟨"web_search", q, tcid⟩],
       Message.toolResult (toolOutput search q) tcid "web_search"]
      = Except.ok (final, []) := by
    simp [twoStepLLM, Message.isToolResult]
  have hrest := runLoop_one_step key hk env (twoStepLLM c final q tcid) search fuel
    [Message.user topic, Message.assistant c [⟨"web_search", q, tcid⟩],
     Message.toolResult (toolOutput search q) tcid "web_search"] final hl2
  show runLoop (some key) env (twoStepLLM c final q tcid) search (fuel+1+1)
      [Message.user topic] = _
  rw [runLoop_tools_unfold (some key) env _ search (fuel+1) _ _ hA1 hR1]
  simp only [List.singleton_append, htn, List.cons_append, List.nil_append,
    List.append_assoc]
  simp [hrest, genTrace, hkm, lastToolCalls, List.getLast?_cons_cons,
    List.getLast?_singleton, Message.tool_calls]

theorem should_continue_tools_iff (state : List Message) :
    should_continue state = some Route.tools ↔
      ∃ c tcs, state.getLast? = some (Message.assistant c tcs) ∧ tcs ≠ [] := by
  unfold should_continue
  cases hL : state.getLast? with
  | none => simp
  | some m =>
    cases m with
    | user cc => simp [hasToolCallsAttr]
    | toolResult cc tid tname => simp [hasToolCallsAttr]
    | assistant cc tcs =>
      cases tcs with
      | nil => simp [hasToolCallsAttr, Message.tool_calls]
      | cons t ts =>
        simp only [hasToolCallsAttr, Message.tool_calls]
        simp
        exact ⟨cc, t :: ts, ⟨rfl, rfl⟩, by simp⟩

/-- C1, counterexample: with the credential present and a generation
capability that raises "boom", the loop outcome is the raised fault —
the claimed conversion into a terminal assistant message carrying the
error text does not happen, so the error propagates past the loop
boundary uncaught. -/
theorem C1_counterexample :
    (runLoop (some "k") none llmBoom searchEcho 3 [Message.user "hi"]).outcome
        = Outcome.fault "boom" ∧
    (runLoop (some "k") none llmBoom searchEcho 3
        [Message.user "hi"]).outcome.isFinished = false := by
  constructor <;> rfl

/-- C1, amended: generation-call exceptions are not caught at the node
boundary and are not converted into a Message; they propagate out of the
loop as a raised fault, and only the enclosing UI driver's exception
handler catches them, rendering the System Malfunction error panel with
the error text instead of a message stream. -/
theorem C1_generation_fault_propagates (e key : String) (hk : key ≠ "")
    (env : Option String) (search : SearchCap) (fuel : Nat) (topic : String) :
    (runLoop (some key) env (fun _ => Except.error e) search (fuel+1)
        (initialInputs topic)).outcome = Outcome.fault e ∧
    uiDriver (some key) env (fun _ => Except.error e) search (fuel+1) topic
        = UIOutput.errorPanel ("System Malfunction: " ++ e) := by
  have hkm : keyMissing (resolveApiKey (some key) env) = false := by
    simp [resolveApiKey, keyMissing, hk]
  have hA : agent_node (some key) env (fun _ => Except.error e)
      (initialInputs topic) = Except.error e := by
    rw [agent_node_present _ _ _ _ hkm]
  have h1 : (runLoop (some key) env (fun _ => Except.error e) search (fuel+1)
      (initialInputs topic)).outcome = Outcome.fault e := by
    simp [runLoop, hA]
  exact ⟨h1, by simp [uiDriver, streamPass, h1]⟩

/-- C1, witness for the amended theorem at a concrete input. -/
theorem C1_witness :
    ("k" : String) ≠ "" ∧
    ((runLoop (some "k") none (fun _ => Except.error "boom") searchEcho 1
        (initialInputs "t")).outcome = Outcome.fault "boom" ∧
     uiDriver (some "k") none (fun _ => Except.error "boom") searchEcho 1 "t"
        = UIOutput.errorPanel ("System Malfunction: " ++ "boom")) :=
  ⟨by decide, C1_generation_fault_propagates "boom" "k" (by decide) none searchEcho 0 "t"⟩

/-- C2: the loop routes to the tools step exactly when the latest message
is an assistant message carrying a non-empty tool-call list; and with a
generation capability that always answers without tool calls (credential
present), the loop runs exactly one agent node, finishes, and the
terminal content equals that reply's content. -/
theorem C2_route_iff_and_one_step (key c : String) (hk : key ≠ "")
    (env : Option String) (search : SearchCap) (fuel : Nat)
    (init state : List Message) :
    (should_continue state = some Route.tools ↔
      ∃ cc tcs, state.getLast? = some (Message.assistant cc tcs) ∧ tcs ≠ []) ∧
    (runLoop (some key) env (fun _ => Except.ok (c, [])) search (fuel+1)
        init).nodes = [Node.agent] ∧
    (runLoop (some key) env (fun _ => Except.ok (c, [])) search (fuel+1)
        init).outcome = Outcome.finished (init ++ [Message.assistant c []]) ∧
    (runLoop (some key) env (fun _ => Except.ok (c, [])) search (fuel+1)
        init).outcome.terminalContent = some c := by
  have hkb : (key == "") = false := by simp [hk]
  have h := runLoop_one_step key hkb env (fun _ => Except.ok (c, [])) search
    fuel init c rfl
  refine ⟨should_continue_tools_iff state, ?_, ?_, ?_⟩
  · rw [h]
  · rw [h]
  · rw [h]
    simp [Outcome.terminalContent, List.getLast?_concat, Message.content]

/-- C2, witness at a concrete input. -/
theorem C2_witness :
    ("k" : String) ≠ "" ∧
    ((should_continue [Message.assistant "x" [⟨"web_search", "q", "i"⟩]]
        = some Route.tools ↔
      ∃ cc tcs, ([Message.assistant "x" [⟨"web_search", "q", "i"⟩]] :
          List Message).getLast? = some (Message.assistant cc tcs) ∧ tcs ≠ []) ∧
     (runLoop (some "k") none (fun _ => Except.ok ("done", [])) searchEcho 1
        [Message.user "t"]).nodes = [Node.agent] ∧
     (runLoop (some "k") none (fun _ => Except.ok ("done", [])) searchEcho 1
        [Message.user "t"]).outcome = Outcome.finished
          ([Message.user "t"] ++ [Message.assistant "done" []]) ∧
     (runLoop (some "k") none (fun _ => Except.ok ("done", [])) searchEcho 1
        [Message.user "t"]).outcome.terminalContent = some "done") :=
  ⟨by decide, C2_route_iff_and_one_step "k" "done" (by decide) none searchEcho 0
    [Message.user "t"] [Message.assistant "x" [⟨"web_search", "q", "i"⟩]]⟩

/-- C3: with the credential absent from both the secret store and the
process environment, a loop run issues zero outbound capability calls
and finishes with the fixed configuration-error text as terminal
content. -/
theorem C3_missing_credential (llm : GenCap) (search : SearchCap) (fuel : Nat)
    (init : List Message) :
    (runLoop none none llm search (fuel+1) init).calls = [] ∧
    (runLoop none none llm search (fuel+1) init).outcome
        = Outcome.finished (init ++ [missingKeyMsg]) ∧
    (runLoop none none llm search (fuel+1) init).outcome.terminalContent
        = some "⚠️ **System Alert:** API Key missing. Check Settings." := by
  have h := runLoop_missing_key none none llm search fuel init rfl
  rw [h]
  refine ⟨rfl, rfl, ?_⟩
  simp [Outcome.terminalContent, List.getLast?_concat, missingKeyMsg,
    Message.content]

/-- C4: when the search capability raises during the tools step, the
fault is captured as the tool-result message content — a non-empty error
string — and the loop proceeds to another agent step (node sequence
agent, tools, agent) and finishes normally. -/
theorem C4_search_fault_captured (key c final q tcid err topic : String)
    (hk : key ≠ "") (env : Option String) (fuel : Nat) :
    (runLoop (some key) env (twoStepLLM c final q tcid)
        (fun _ => Except.error err) (fuel+2) [Message.user topic]).nodes
        = [Node.agent, Node.tools, Node.agent] ∧
    toolOutput (fun _ => Except.error err) q
        = "Error: " ++ err ++ "\n Please fix your mistakes." ∧
    0 < (toolOutput (fun _ => Except.error err) q).length ∧
    (runLoop (some key) env (twoStepLLM c final q tcid)
        (fun _ => Except.error err) (fuel+2) [Message.user topic]).outcome
      = Outcome.finished
          [Message.user topic, Message.assistant c [⟨"web_search", q, tcid⟩],
           Message.toolResult ("Error: " ++ err ++ "\n Please fix your mistakes.")
             tcid "web_search",
           Message.assistant final []] := by
  have hkb : (key == "") = false := by simp [hk]
  have h := runLoop_two_step key c final q tcid hkb env
    (fun _ => Except.error err) fuel topic
  have hout : toolOutput (fun _ => Except.error err) q
      = "Error: " ++ err ++ "\n Please fix your mistakes." := rfl
  refine ⟨by rw [h], hout, ?_, ?_⟩
  · rw [hout]
    have h7 : ("Error: " : String).length = 7 := by decide
    simp [String.length_append, h7]
  · rw [h, hout]

/-- C4, witness at a concrete input. -/
theorem C4_witness :
    ("k" : String) ≠ "" ∧
    ((runLoop (some "k") none (twoStepLLM "go" "done" "q1" "id1")
        (fun _ => Except.error "down") 2 [Message.user "t"]).nodes
        = [Node.agent, Node.tools, Node.agent] ∧
     toolOutput (fun _ => Except.error "down") "q1"
        = "Error: " ++ "down" ++ "\n Please fix your mistakes." ∧
     0 < (toolOutput (fun _ => Except.error "down") "q1").length ∧
     (runLoop (some "k") none (twoStepLLM "go" "done" "q1" "id1")
        (fun _ => Except.error "down") 2 [Message.user "t"]).outcome
       = Outcome.finished
           [Message.user "t", Message.assistant "go" [⟨"web_search", "q1", "id1"⟩],
            Message.toolResult ("Error: " ++ "down" ++ "\n Please fix your mistakes.")
              "id1" "web_search",
            Message.assistant "done" []]) :=
  ⟨by decide, C4_search_fault_captured "k" "go" "done" "q1" "id1" "down" "t"
    (by decide) none 0⟩

/-- C5: with a generation capability that requests a web_search tool call
on its first invocation and answers without tool calls on its second, the
loop executes exactly agent, tools, agent, and the appended tool-result
message content equals the search capability's output for the query named
in the tool call. -/
theorem C5_agent_tools_agent (key c final q tcid topic : String) (hk : key ≠ "")
    (env : Option String) (fuel : Nat) (f : String → String) :
    (runLoop (some key) env (twoStepLLM c final q tcid)
        (fun x => Except.ok (f x)) (fuel+2) [Message.user topic]).nodes
        = [Node.agent, Node.tools, Node.agent] ∧
    toolOutput (fun x => Except.ok (f x)) q = f q ∧
    (runLoop (some key) env (twoStepLLM c final q tcid)
        (fun x => Except.ok (f x)) (fuel+2) [Message.user topic]).states
      = [[Message.user topic, Message.assistant c [⟨"web_search", q, tcid⟩]],
         [Message.user topic, Message.assistant c [⟨"web_search", q, tcid⟩],
          Message.toolResult (f q) tcid "web_search"],
         [Message.user topic, Message.assistant c [⟨"web_search", q, tcid⟩],
          Message.toolResult (f q) tcid "web_search",
          Message.assistant final []]] ∧
    (runLoop (some key) env (twoStepLLM c final q tcid)
        (fun x => Except.ok (f x)) (fuel+2) [Message.user topic]).outcome
      = Outcome.finished
          [Message.user topic, Message.assistant c [⟨"web_search", q, tcid⟩],
           Message.toolResult (f q) tcid "web_search",
           Message.assistant final []] := by
  have hkb : (key == "") = false := by simp [hk]
  have h := runLoop_two_step key c final q tcid hkb env
    (fun x => Except.ok (f x)) fuel topic
  have hout : toolOutput (fun x => Except.ok (f x)) q = f q := rfl
  rw [hout] at h
  exact ⟨by rw [h], hout, by rw [h], by rw [h]⟩

/-- C5, witness at a concrete input. -/
theorem C5_witness :
    ("k" : String) ≠ "" ∧
    ((runLoop (some "k") none (twoStepLLM "go" "done" "q1" "id1")
        (fun x => Except.ok (String.append "result for " x)) 2
        [Message.user "t"]).nodes = [Node.agent, Node.tools, Node.agent] ∧
     toolOutput (fun x => Except.ok (String.append "result for " x)) "q1"
        = String.append "result for " "q1" ∧
     (runLoop (some "k") none (twoStepLLM "go" "done" "q1" "id1")
        (fun x => Except.ok (String.append "result for " x)) 2
        [Message.user "t"]).states
      = [[Message.user "t", Message.assistant "go" [⟨"web_search", "q1", "id1"⟩]],
         [Message.user "t", Message.assistant "go" [⟨"web_search", "q1", "id1"⟩],
          Message.toolResult (String.append "result for " "q1") "id1" "web_search"],
         [Message.user "t", Message.assistant "go" [⟨"web_search", "q1", "id1"⟩],
          Message.toolResult (String.append "result for " "q1") "id1" "web_search",
          Message.assistant "done" []]] ∧
     (runLoop (some "k") none (twoStepLLM "go" "done" "q1" "id1")
        (fun x => Except.ok (String.append "result for " x)) 2
        [Message.user "t"]).outcome
      = Outcome.finished
          [Message.user "t", Message.assistant "go" [⟨"web_search", "q1", "id1"⟩],
           Message.toolResult (String.append "result for " "q1") "id1" "web_search",
           Message.assistant "done" []]) :=
  ⟨by decide, C5_agent_tools_agent "k" "go" "done" "q1" "id1" "t" (by decide)
    none 0 (String.append "result for ")⟩

/-- C6: in every state reachable by the loop (the generation capability
answering at most one tool call per reply, as the external interface
declares), a tool-result message is never first and is always immediately
preceded by an assistant message carrying a matching tool call; and every
step only appends — each recorded state extends the previous one as a
prefix. -/
theorem C6_reachable_invariant (secrets env : Option String) (llm : GenCap)
    (search : SearchCap) (fuel : Nat) (init : List Message)
    (hllm : ∀ h c tcs, llm h = Except.ok (c, tcs) → tcs.length ≤ 1)
    (hinit : msgInvariant init = true) :
    (runLoop secrets env llm search fuel init).states.all msgInvariant = true ∧
    isAppendChain (init :: (runLoop secrets env llm search fuel init).states)
        = true :=
  runLoop_states_sound secrets env llm search hllm fuel init hinit

/-- C6, witness at a concrete input. -/
theorem C6_witness :
    (runLoop (some "k") none (twoStepLLM "go" "done" "q1" "id1") searchEcho 4
        [Message.user "hi"]).states.all msgInvariant = true ∧
    isAppendChain ([Message.user "hi"] :: (runLoop (some "k") none
        (twoStepLLM "go" "done" "q1" "id1") searchEcho 4
        [Message.user "hi"]).states) = true :=
  C6_reachable_invariant (some "k") none (twoStepLLM "go" "done" "q1" "id1")
    searchEcho 4 [Message.user "hi"]
    (by
      intro h c tcs hok
      unfold twoStepLLM at hok
      split at hok <;>
        · injection hok with hok
          injection hok with h1 h2
          rw [← h2]
          decide)
    (by decide)

/-- C7: one user request runs the streaming pass and then the blocking
pass on the same inputs; both replay the identical node sequence and
issue the same sequence of outbound capability calls, so over the whole
request every outbound generation/search call is issued twice. -/
theorem C7_request_doubles_calls (secrets env : Option String) (llm : GenCap)
    (search : SearchCap) (fuel : Nat) (topic : String) (cc : CapCall)
    (hterm : (streamPass secrets env llm search fuel topic).outcome.isFinished
        = true) :
    (streamPass secrets env llm search fuel topic).nodes
        = (invokePass secrets env llm search fuel topic).nodes ∧
    (streamPass secrets env llm search fuel topic).calls
        = (invokePass secrets env llm search fuel topic).calls ∧
    uiOutboundCalls secrets env llm search fuel topic
        = (streamPass secrets env llm search fuel topic).calls
          ++ (streamPass secrets env llm search fuel topic).calls ∧
    (uiOutboundCalls secrets env llm search fuel topic).count cc
        = 2 * ((streamPass secrets env llm search fuel topic).calls.count cc)
    := by
  have hmain : uiOutboundCalls secrets env llm search fuel topic
      = (streamPass secrets env llm search fuel topic).calls
        ++ (streamPass secrets env llm search fuel topic).calls := by
    unfold uiOutboundCalls
    cases ho : (streamPass secrets env llm search fuel topic).outcome with
    | finished msgs => rfl
    | fault e => rw [ho] at hterm; simp [Outcome.isFinished] at hterm
    | indexFault => rw [ho] at hterm; simp [Outcome.isFinished] at hterm
    | outOfFuel s2 => rw [ho] at hterm; simp [Outcome.isFinished] at hterm
  refine ⟨rfl, rfl, hmain, ?_⟩
  rw [hmain, List.count_append, Nat.two_mul]

/-- C7, witness at a concrete input. -/
theorem C7_witness :
    (streamPass (some "k") none (fun _ => Except.ok ("done", [])) searchEcho 1
        "t").outcome.isFinished = true ∧
    ((streamPass (some "k") none (fun _ => Except.ok ("done", [])) searchEcho 1
        "t").nodes
        = (invokePass (some "k") none (fun _ => Except.ok ("done", []))
            searchEcho 1 "t").nodes ∧
     (streamPass (some "k") none (fun _ => Except.ok ("done", [])) searchEcho 1
        "t").calls
        = (invokePass (some "k") none (fun _ => Except.ok ("done", []))
            searchEcho 1 "t").calls ∧
     uiOutboundCalls (some "k") none (fun _ => Except.ok ("done", []))
        searchEcho 1 "t"
        = (streamPass (some "k") none (fun _ => Except.ok ("done", []))
            searchEcho 1 "t").calls
          ++ (streamPass (some "k") none (fun _ => Except.ok ("done", []))
              searchEcho 1 "t").calls ∧
     (uiOutboundCalls (some "k") none (fun _ => Except.ok ("done", []))
        searchEcho 1 "t").count (CapCall.gen (initialInputs "t"))
        = 2 * ((streamPass (some "k") none (fun _ => Except.ok ("done", []))
            searchEcho 1 "t").calls.count (CapCall.gen (initialInputs "t")))) :=
  ⟨by decide, C7_request_doubles_calls (some "k") none
    (fun _ => Except.ok ("done", [])) searchEcho 1 "t"
    (CapCall.gen (initialInputs "t")) (by decide)⟩

/-- C8: the loop imposes no iteration cap — with a generation capability
that requests a tool call on every invocation (credential present), the
run never finishes for any fuel bound, and its node trace is the pure
agent-tools cycle of that length. -/
theorem C8_no_iteration_cap (key c : String) (hk : key ≠ "")
    (env : Option String) (search : SearchCap) (tc : ToolCall) (fuel : Nat)
    (state : List Message) :
    (runLoop (some key) env (loopingLLM c tc) search fuel state).outcome.isOutOfFuel
        = true ∧
    (runLoop (some key) env (loopingLLM c tc) search fuel state).outcome.isFinished
        = false ∧
    (runLoop (some key) env (loopingLLM c tc) search fuel state).nodes
        = cycleNodes fuel := by
  have hkb : (key == "") = false := by simp [hk]
  obtain ⟨h1, h2⟩ := runLoop_looping key c hkb env search tc fuel state
  refine ⟨h1, ?_, h2⟩
  cases ho : (runLoop (some key) env (loopingLLM c tc) search fuel state).outcome <;>
    rw [ho] at h1 <;> simp_all [Outcome.isOutOfFuel, Outcome.isFinished]

/-- C8, witness at a concrete input. -/
theorem C8_witness :
    ("k" : String) ≠ "" ∧
    ((runLoop (some "k") none (loopingLLM "go" ⟨"web_search", "q1", "id1"⟩)
        searchEcho 2 [Message.user "t"]).outcome.isOutOfFuel = true ∧
     (runLoop (some "k") none (loopingLLM "go" ⟨"web_search", "q1", "id1"⟩)
        searchEcho 2 [Message.user "t"]).outcome.isFinished = false ∧
     (runLoop (some "k") none (loopingLLM "go" ⟨"web_search", "q1", "id1"⟩)
        searchEcho 2 [Message.user "t"]).nodes = cycleNodes 2) :=
  ⟨by decide, C8_no_iteration_cap "k" "go" (by decide) none searchEcho
    ⟨"web_search", "q1", "id1"⟩ 2 [Message.user "t"]⟩

/-- C9: the credential is resolved from the secret store first, the
process environment is consulted only when the store yields nothing, and
absence from both is recoverable inside the loop — the agent node still
runs and the loop finishes normally rather than failing at startup. -/
theorem C9_credential_resolution (v : String) (env : Option String)
    (llm : GenCap) (search : SearchCap) (fuel : Nat) (init : List Message) :
    resolveApiKey (some v) env = some v ∧
    resolveApiKey none env = env ∧
    (runLoop none none llm search (fuel+1) init).nodes = [Node.agent] ∧
    (runLoop none none llm search (fuel+1) init).outcome.isFinished = true := by
  have h := runLoop_missing_key none none llm search fuel init rfl
  refine ⟨rfl, rfl, ?_, ?_⟩
  · rw [h]
  · rw [h]
    rfl

/-- C10: every agent step that returns yields exactly one new message, so
the continuation check always finds a non-empty list and its last-element
access never faults (the loop never reaches the IndexError outcome), and
the check is total on messages without a tool_calls attribute, routing
them to terminal. -/
theorem C10_step_totality (secrets env : Option String) (llm : GenCap)
    (search : SearchCap) (fuel : Nat) (state s : List Message) (m : Message)
    (uc trc trid trname : String) :
    okLen1 (agent_node secrets env llm state) ∧
    (should_continue (s ++ [m])).isSome = true ∧
    should_continue (s ++ [Message.user uc]) = some Route.terminal ∧
    should_continue (s ++ [Message.toolResult trc trid trname])
        = some Route.terminal ∧
    (runLoop secrets env llm search fuel state).outcome.isIndexFault = false := by
  refine ⟨?_, ?_, ?_, ?_, runLoop_no_indexFault secrets env llm search fuel state⟩
  · cases hA : agent_node secrets env llm state with
    | error e => simp [okLen1]
    | ok msgs =>
      obtain ⟨c, tcs, rfl⟩ := agent_node_ok_shape _ _ _ _ _ hA
      simp [okLen1]
  · rw [should_continue_append]
    split <;> rfl
  · rw [should_continue_append]
    simp [hasToolCallsAttr]
  · rw [should_continue_append]
    simp [hasToolCallsAttr]
